import Mathlib

/-!
Verification of the dynamic-memory subsystem in `src/allocator.rs` of
jcoglan/rust-os: the `align_up` helpers, the heap-region initializer
`init_heap`, the `page_range` computation, the `Dummy` allocator, and the
bump allocator state machine.

Machine integers (`usize` / `u64`) are modelled as `Nat` with explicit
reduction modulo `2 ^ 64` where the Rust code can wrap (release-mode
semantics); a Rust panic (division by zero) is modelled by `Option`.
-/

/-- The modulus of `usize` arithmetic: the target (x86_64) has 64-bit
addresses. -/
def USIZE : Nat := 2 ^ 64

/-- Source function `fn align_up(addr: usize, align: usize) -> usize`:
`let remainder = addr % align; if remainder == 0 { addr } else { addr - remainder + align }`.
The final addition is reduced mod `2 ^ 64` (release-mode wrapping);
`addr - remainder` can never underflow since `remainder <= addr`. -/
def align_up (addr align : Nat) : Nat :=
  let remainder := addr % align
  if remainder = 0 then addr
  else (addr - remainder + align) % USIZE

/-- Variant of `align_up` with the Rust panic made explicit: `addr % align` aborts the
program when `align == 0`; `none` models that panic. -/
def align_upP (addr align : Nat) : Option Nat :=
  if align = 0 then none else some (align_up addr align)

/-- Wrapping decrement on a `usize` value: `x - 1` computed with
release-mode wraparound. -/
def wrapSub1 (x : Nat) : Nat := (x + (USIZE - 1)) % USIZE

/-- Source function `fn _align_up(addr: usize, align: usize) -> usize`:
`(addr + align - 1) & !(align - 1)`.  Both subtractions are modelled with
wraparound via `wrapSub1`, and `!` (bitwise not on `usize`) is xor with
`2 ^ 64 - 1`. -/
def _align_up (addr align : Nat) : Nat :=
  wrapSub1 ((addr + align) % USIZE) &&& ((USIZE - 1) ^^^ wrapSub1 (align % USIZE))

/-- Source constant `pub const HEAP_START: usize = 0x_4444_4444_0000;` -/
def HEAP_START : Nat := 0x444444440000

/-- Source constant `pub const HEAP_SIZE: usize = 100 * 1024;` -/
def HEAP_SIZE : Nat := 100 * 1024

/-- Pages of type `Size4KiB`: 4096 bytes. -/
def PAGE_SIZE : Nat := 4096

/-- Flag `PageTableFlags::PRESENT` (bit 0 of an x86_64 page-table entry). -/
def PRESENT : Nat := 1

/-- Flag `PageTableFlags::WRITABLE` (bit 1 of an x86_64 page-table entry). -/
def WRITABLE : Nat := 2

/-- Model of `Page::<Size4KiB>::containing_address(addr)`, identified with the start
address of the page: `addr` aligned down to 4096. -/
def pageContainingAddress (addr : Nat) : Nat := addr / PAGE_SIZE * PAGE_SIZE

/-- Source function `fn page_range() -> PageRangeInclusive`: the inclusive range of pages
from the page containing `HEAP_START` to the page containing
`HEAP_START + HEAP_SIZE - 1u64`, enumerated as the list of page start
addresses in ascending order (the iteration order of
`Page::range_inclusive`). -/
def page_range : List Nat :=
  let heap_start_page := pageContainingAddress HEAP_START
  let heap_end_page := pageContainingAddress (HEAP_START + HEAP_SIZE - 1)
  (List.range ((heap_end_page - heap_start_page) / PAGE_SIZE + 1)).map
    (fun i => heap_start_page + PAGE_SIZE * i)

/-- Error type `MapToError<Size4KiB>` from the x86_64 crate (the payload of
`PageAlreadyMapped` is irrelevant here). -/
inductive MapToError where
  | FrameAllocationFailed
  | ParentEntryHugePage
  | PageAlreadyMapped
deriving DecidableEq

/-- Observable effects of `init_heap`: a successfully installed mapping
(`mapper.map_to(page, frame, flags, ..)` returning `Ok`), a translation
cache invalidation (`.flush()`), and the call
`ALLOCATOR.lock().init(HEAP_START, HEAP_SIZE)`. -/
inductive Event where
  | map (page frame flags : Nat)
  | flush (page : Nat)
  | allocInit (start size : Nat)
deriving DecidableEq

/-- The external collaborators of `init_heap`, abstracted: a frame
allocator with state `F` (`allocate_frame` returns a frame and the new
state, or `None`), and a mapper with state `M` (`map_to` may consume
frame-allocator state for page tables and may fail with `MapToError`). -/
structure InitEnv (M F : Type) where
  allocate_frame : F → Option (Nat × F)
  map_to : M → Nat → Nat → Nat → F → Except MapToError (M × F)

/-- The `for page in page_range()` loop of `init_heap`: for each page,
request a frame (`ok_or(MapToError::FrameAllocationFailed)?`), then
`map_to(page, frame, PRESENT | WRITABLE, ..)?.flush()`.  Returns the
result together with the trace of events. -/
def init_heap_loop {M F : Type} (env : InitEnv M F) (m : M) (f : F) :
    List Nat → Except MapToError (M × F) × List Event
  | [] => (Except.ok (m, f), [])
  | page :: rest =>
    match env.allocate_frame f with
    | none => (Except.error MapToError.FrameAllocationFailed, [])
    | some (frame, f₁) =>
      match env.map_to m page frame (PRESENT ||| WRITABLE) f₁ with
      | Except.error e => (Except.error e, [])
      | Except.ok (m₁, f₂) =>
        ((init_heap_loop env m₁ f₂ rest).1,
          Event.map page frame (PRESENT ||| WRITABLE) :: Event.flush page ::
            (init_heap_loop env m₁ f₂ rest).2)

/-- Source function `pub fn init_heap(mapper, frame_allocator) -> Result<(), MapToError<Size4KiB>>`:
run the mapping loop over `page_range()`; on success call
`ALLOCATOR.lock().init(HEAP_START, HEAP_SIZE)` and return `Ok(())`. -/
def init_heap {M F : Type} (env : InitEnv M F) (m : M) (f : F) :
    Except MapToError (M × F) × List Event :=
  match (init_heap_loop env m f page_range).1 with
  | Except.ok mf =>
    (Except.ok mf,
      (init_heap_loop env m f page_range).2 ++ [Event.allocInit HEAP_START HEAP_SIZE])
  | Except.error e => (Except.error e, (init_heap_loop env m f page_range).2)

/-- Type `alloc::alloc::Layout`: size and alignment of an allocation request. -/
structure Layout where
  size : Nat
  align : Nat

/-- Source function `Dummy::alloc`: `null_mut()`, i.e. address 0, for every layout. -/
def Dummy.alloc (_layout : Layout) : Nat := 0

/-- Source function `Dummy::dealloc`: panics unconditionally (modelled by `none`). -/
def Dummy.dealloc (_ptr : Nat) (_layout : Layout) : Option Unit := none

/-- Modelled from the spec: the bump allocator lives in `src/bump.rs`
(`pub mod bump`), which is not present under `src/`.  State per the spec,
section 3: `{ heap_start, heap_end (exclusive), next, allocation_count }`. -/
structure BumpAllocator where
  heap_start : Nat
  heap_end : Nat
  next : Nat
  allocation_count : Nat
deriving DecidableEq

/-- Modelled from the spec: `Initialize(start, size)` sets
`heap_start = start`, `heap_end = start + size`, `next = start`,
`allocation_count = 0`. -/
def BumpAllocator.init (start size : Nat) : BumpAllocator :=
  ⟨start, start + size, start, 0⟩

/-- Modelled from the spec: `Allocate(requested_size, requested_alignment)`
rounds `next` up to the alignment, fails with OutOfMemory (`none`) when
`candidate + requested_size` overflows the address width or exceeds
`heap_end`, and otherwise advances `next`, increments `allocation_count`
and returns `candidate`. -/
def BumpAllocator.alloc (b : BumpAllocator) (size align : Nat) :
    Option Nat × BumpAllocator :=
  let candidate := align_up b.next align
  if candidate + size < USIZE then
    if b.heap_end < candidate + size then (none, b)
    else (some candidate, ⟨b.heap_start, b.heap_end, candidate + size, b.allocation_count + 1⟩)
  else (none, b)

/-- A concrete environment in which every `allocate_frame` and `map_to`
call succeeds: frame `f` is handed out for state `f`, states count up. -/
def envOk : InitEnv Nat Nat :=
  ⟨fun f => some (f, f + 1), fun m _page _frame _flags f => Except.ok (m, f)⟩

/-- A concrete environment whose frame supplier is exhausted after two
frames: the third `allocate_frame` call returns `none`. -/
def envW : InitEnv Nat Nat :=
  ⟨fun f => if f < 2 then some (100 + f, f + 1) else none,
    fun m _page _frame _flags f => Except.ok (m, f)⟩

-- ## Theorems

/-- Claim C1: for a power-of-two alignment, whenever the rounding
computation does not overflow the address width, `align_up addr align` is
the least multiple of `align` that is `≥ addr`. -/
theorem align_up_least_multiple (addr align k : Nat) (hk : align = 2 ^ k)
    (hov : addr % align = 0 ∨ addr - addr % align + align < USIZE) :
    align ∣ align_up addr align ∧ addr ≤ align_up addr align ∧
      ∀ m, align ∣ m → addr ≤ m → align_up addr align ≤ m := by
  have hpos : 0 < align := hk ▸ pow_pos (by norm_num) k
  have hdm := Nat.div_add_mod addr align
  by_cases hr : addr % align = 0
  · have heq : align_up addr align = addr := by simp [align_up, hr]
    rw [heq]
    exact ⟨Nat.dvd_of_mod_eq_zero hr, Nat.le_refl addr, fun m _ hm => hm⟩
  · have hrlt : addr % align < align := Nat.mod_lt _ hpos
    have hlt : addr - addr % align + align < USIZE := by
      rcases hov with h | h
      · exact absurd h hr
      · exact h
    have hval : align_up addr align = addr - addr % align + align := by
      simp [align_up, hr, Nat.mod_eq_of_lt hlt]
    have hsub : addr - addr % align = align * (addr / align) := by
      omega
    refine ⟨?_, ?_, ?_⟩
    · rw [hval, hsub, ← Nat.mul_succ]
      exact Dvd.intro _ rfl
    · rw [hval]; omega
    · intro m hdvd hm
      obtain ⟨j, hj⟩ := hdvd
      rw [hval, hsub, ← Nat.mul_succ]
      have hqj : addr / align < j := by
        by_contra hle
        push_neg at hle
        have : align * j ≤ align * (addr / align) := Nat.mul_le_mul_left _ hle
        omega
      calc align * (addr / align + 1) ≤ align * j := Nat.mul_le_mul_left _ hqj
        _ = m := hj.symm

/-- Witness for C1 at `addr = 10`, `align = 8 = 2 ^ 3`: the result is a
multiple of 8 between 10 and 16, hence exactly 16. -/
theorem align_up_least_multiple_witness :
    10 ≤ align_up 10 8 ∧ align_up 10 8 ≤ 16 :=
  ⟨(align_up_least_multiple 10 8 3 (by norm_num) (by right; decide)).2.1,
    (align_up_least_multiple 10 8 3 (by norm_num) (by right; decide)).2.2
      16 (by decide) (by decide)⟩

/-- Claim C9: `align_up` hits a division by zero (a panic) exactly when
`align = 0`; for every positive alignment it is total and returns the
value of the wrapping model. -/
theorem align_upP_total_iff (addr align : Nat) :
    ((align_upP addr align).isSome = true ↔ 0 < align) ∧
      (0 < align → align_upP addr align = some (align_up addr align)) := by
  constructor
  · constructor
    · intro h
      by_contra h0
      push_neg at h0
      interval_cases align
      simp [align_upP] at h
    · intro h
      simp [align_upP, Nat.pos_iff_ne_zero.mp h]
  · intro h
    simp [align_upP, Nat.pos_iff_ne_zero.mp h]

/-- Witness for C9: at `align = 0` the model signals the panic, at
`align = 4` it is total. -/
theorem align_upP_total_iff_witness :
    align_upP 5 0 = none ∧ align_upP 5 4 = some (align_up 5 4) :=
  ⟨rfl, (align_upP_total_iff 5 4).2 (by decide)⟩

/-- The function `align_up` is the identity on multiples of `align`. -/
theorem align_up_of_mod_eq_zero (x align : Nat) (hx : x % align = 0) :
    align_up x align = x := by
  simp [align_up, hx]

/-- Claim C10: `align_up` is idempotent for positive alignments in the
absence of overflow, and returns `addr` unchanged whenever `addr` is
already a multiple of `align`. -/
theorem align_up_idem (addr align : Nat) (hpos : 0 < align)
    (hov : addr % align = 0 ∨ addr - addr % align + align < USIZE) :
    align_up (align_up addr align) align = align_up addr align ∧
      (addr % align = 0 → align_up addr align = addr) := by
  constructor
  · by_cases hr : addr % align = 0
    · rw [align_up_of_mod_eq_zero addr align hr,
        align_up_of_mod_eq_zero addr align hr]
    · have hdm := Nat.div_add_mod addr align
      have hrlt : addr % align < align := Nat.mod_lt _ hpos
      have hlt : addr - addr % align + align < USIZE := by
        rcases hov with h | h
        · exact absurd h hr
        · exact h
      have hval : align_up addr align = addr - addr % align + align := by
        simp [align_up, hr, Nat.mod_eq_of_lt hlt]
      have hsub : addr - addr % align = align * (addr / align) := by omega
      have hmul : align_up addr align = align * (addr / align + 1) := by
        rw [hval, hsub, Nat.mul_succ]
      have hmod : align_up addr align % align = 0 := by
        rw [hmul]; exact Nat.mul_mod_right _ _
      exact align_up_of_mod_eq_zero _ _ hmod
  · intro hr
    exact align_up_of_mod_eq_zero _ _ hr

/-- Witness for C10 at `addr = 10`, `align = 8` (idempotence) and
`addr = 16`, `align = 8` (fixed point on multiples). -/
theorem align_up_idem_witness :
    align_up (align_up 10 8) 8 = align_up 10 8 ∧ align_up 16 8 = 16 :=
  ⟨(align_up_idem 10 8 (by decide) (by right; decide)).1,
    (align_up_idem 16 8 (by decide) (by left; decide)).2 (by decide)⟩

/-- Claim C8: the `Dummy` allocator returns the null pointer from `alloc`
for every layout, and its `dealloc` panics unconditionally. -/
theorem dummy_alloc_null_dealloc_panics :
    (∀ l : Layout, Dummy.alloc l = 0) ∧
      ∀ (p : Nat) (l : Layout), Dummy.dealloc p l = none :=
  ⟨fun _ => rfl, fun _ _ => rfl⟩

/-- The wrapping decrement does not wrap on `1 ≤ x ≤ USIZE`. -/
theorem wrapSub1_eq (x : Nat) (hx1 : 1 ≤ x) (hx : x ≤ USIZE) :
    wrapSub1 (x % USIZE) = x - 1 := by
  have hU0 : 0 < USIZE := by decide
  rcases Nat.lt_or_ge x USIZE with h | h
  · rw [Nat.mod_eq_of_lt h]
    unfold wrapSub1
    have h1 : x + (USIZE - 1) = (x - 1) + USIZE := by omega
    rw [h1, Nat.add_mod_right]
    exact Nat.mod_eq_of_lt (by omega)
  · have hx' : x = USIZE := Nat.le_antisymm hx h
    subst hx'
    unfold wrapSub1
    rw [Nat.mod_self, Nat.zero_add]
    rw [Nat.mod_eq_of_lt (by omega)]

/-- The value `2 ^ 64 - 2 ^ k` written as a shifted low mask, for `k ≤ 64`. -/
theorem usize_sub_pow_shift (k : Nat) (hk : k ≤ 64) :
    USIZE - 2 ^ k = (2 ^ (64 - k) - 1) <<< k := by
  rw [Nat.shiftLeft_eq, Nat.sub_mul, Nat.one_mul, ← pow_add]
  have h64 : 64 - k + k = 64 := by omega
  rw [h64]
  rfl

/-- Bitwise complement of the low mask: `!(2 ^ k - 1)` on 64 bits is
`2 ^ 64 - 2 ^ k`, for `k ≤ 64`. -/
theorem usize_xor_mask (k : Nat) (hk : k ≤ 64) :
    (USIZE - 1) ^^^ (2 ^ k - 1) = USIZE - 2 ^ k := by
  have hU : USIZE - 1 = 2 ^ 64 - 1 := rfl
  apply Nat.eq_of_testBit_eq
  intro i
  rw [Nat.testBit_xor, hU, usize_sub_pow_shift k hk, Nat.testBit_shiftLeft,
    Nat.testBit_two_pow_sub_one, Nat.testBit_two_pow_sub_one,
    Nat.testBit_two_pow_sub_one]
  rcases Nat.lt_or_ge i k with h2 | h2
  · have h1 : i < 64 := Nat.lt_of_lt_of_le h2 hk
    have h3 : ¬ (i ≥ k) := Nat.not_le.mpr h2
    simp [h1, h2, h3]
  · have h2' : ¬ i < k := Nat.not_lt.mpr h2
    rcases Nat.lt_or_ge i 64 with h1 | h1
    · have h4 : i - k < 64 - k := by omega
      simp [h1, h2', h2, h4]
    · have h1' : ¬ i < 64 := Nat.not_lt.mpr h1
      have h4 : ¬ (i - k < 64 - k) := by omega
      simp [h1', h2', h2, h4]

/-- Clearing the low `k` bits of `x < 2 ^ 64` with the high mask rounds
`x` down to a multiple of `2 ^ k`. -/
theorem land_high_mask (x k : Nat) (hx : x < USIZE) (hk : k ≤ 64) :
    x &&& (USIZE - 2 ^ k) = 2 ^ k * (x / 2 ^ k) := by
  have hr : 2 ^ k * (x / 2 ^ k) = (x >>> k) <<< k := by
    rw [Nat.shiftRight_eq_div_pow, Nat.shiftLeft_eq, Nat.mul_comm]
  apply Nat.eq_of_testBit_eq
  intro i
  rw [Nat.testBit_land, hr, usize_sub_pow_shift k hk, Nat.testBit_shiftLeft,
    Nat.testBit_shiftLeft, Nat.testBit_shiftRight,
    Nat.testBit_two_pow_sub_one]
  rcases Nat.lt_or_ge i k with h2 | h2
  · have h3 : ¬ (i ≥ k) := Nat.not_le.mpr h2
    simp [h3]
  · have hki : k + (i - k) = i := by omega
    rw [hki]
    rcases Nat.lt_or_ge i 64 with h1 | h1
    · have h4 : i - k < 64 - k := by omega
      simp [h2, h4]
    · have h4 : ¬ (i - k < 64 - k) := by omega
      have hxi : x < 2 ^ i := by
        have : (2 : Nat) ^ 64 ≤ 2 ^ i := Nat.pow_le_pow_right (by norm_num) h1
        have hx' : x < 2 ^ 64 := hx
        omega
      have hxb : x.testBit i = false := Nat.testBit_lt_two_pow hxi
      simp [h2, h4, hxb]

/-- Multiplying back the rounded-up quotient `(addr + P - 1) / P` gives the
remainder-based round-up. -/
theorem mul_div_round_up (addr P : Nat) (hP : 0 < P) :
    P * ((addr + P - 1) / P) =
      if addr % P = 0 then addr else addr - addr % P + P := by
  have hdm := Nat.div_add_mod addr P
  have hrlt : addr % P < P := Nat.mod_lt _ hP
  by_cases hr : addr % P = 0
  · rw [if_pos hr]
    have h1 : addr + P - 1 = P * (addr / P) + (P - 1) := by omega
    rw [h1, Nat.mul_add_div hP, Nat.div_eq_of_lt (by omega : P - 1 < P),
      Nat.add_zero]
    omega
  · rw [if_neg hr]
    have h1 : addr + P - 1 = P * (addr / P + 1) + (addr % P - 1) := by
      rw [Nat.mul_succ]
      omega
    rw [h1, Nat.mul_add_div hP,
      Nat.div_eq_of_lt (by omega : addr % P - 1 < P), Nat.add_zero,
      Nat.mul_succ]
    omega

/-- Claim C2: for a power-of-two `align` within the address width, when
`addr + align - 1` does not overflow, the remainder-based `align_up`
agrees with the bitmask formula `_align_up`. -/
theorem align_up_eq_bitmask (addr align k : Nat) (hk : align = 2 ^ k)
    (hk64 : k < 64) (hov : addr + align - 1 < USIZE) :
    align_up addr align = _align_up addr align := by
  subst hk
  have hP : 0 < 2 ^ k := pow_pos (by norm_num) k
  have hkle : k ≤ 64 := Nat.le_of_lt hk64
  have hPlt : 2 ^ k < USIZE := by
    have : (2 : Nat) ^ k < 2 ^ 64 := Nat.pow_lt_pow_right (by norm_num) hk64
    have hU : USIZE = 2 ^ 64 := rfl
    omega
  have h1 : wrapSub1 ((addr + 2 ^ k) % USIZE) = addr + 2 ^ k - 1 :=
    wrapSub1_eq _ (by omega) (by omega)
  have h2 : wrapSub1 (2 ^ k % USIZE) = 2 ^ k - 1 :=
    wrapSub1_eq _ (by omega) (by omega)
  unfold _align_up
  rw [h1, h2, usize_xor_mask k hkle, land_high_mask _ k (by omega) hkle,
    mul_div_round_up addr _ hP]
  by_cases hr : addr % 2 ^ k = 0
  · simp [align_up, hr]
  · have hrlt : addr % 2 ^ k < 2 ^ k := Nat.mod_lt addr hP
    have hwr : addr - addr % 2 ^ k + 2 ^ k < USIZE := by omega
    simp [align_up, hr, Nat.mod_eq_of_lt hwr]

/-- Witness for C2 at `addr = 4101`, `align = 16 = 2 ^ 4`. -/
theorem align_up_eq_bitmask_witness :
    align_up 4101 16 = _align_up 4101 16 :=
  align_up_eq_bitmask 4101 16 4 (by norm_num) (by norm_num) (by decide)

/-- One loop step when the frame supplier is exhausted. -/
theorem loop_cons_none {M F : Type} (env : InitEnv M F) (m : M) (f : F)
    (p : Nat) (rest : List Nat) (h : env.allocate_frame f = none) :
    init_heap_loop env m f (p :: rest) =
      (Except.error MapToError.FrameAllocationFailed, []) := by
  simp [init_heap_loop, h]

/-- One loop step when the mapping authority rejects the page. -/
theorem loop_cons_maperr {M F : Type} (env : InitEnv M F) (m : M) (f : F)
    (p : Nat) (rest : List Nat) (frame : Nat) (f₁ : F) (e : MapToError)
    (h1 : env.allocate_frame f = some (frame, f₁))
    (h2 : env.map_to m p frame (PRESENT ||| WRITABLE) f₁ = Except.error e) :
    init_heap_loop env m f (p :: rest) = (Except.error e, []) := by
  simp [init_heap_loop, h1, h2]

/-- One successful loop step: record the mapping and its flush, continue. -/
theorem loop_cons_ok {M F : Type} (env : InitEnv M F) (m : M) (f : F)
    (p : Nat) (rest : List Nat) (frame : Nat) (f₁ : F) (m₁ : M) (f₂ : F)
    (h1 : env.allocate_frame f = some (frame, f₁))
    (h2 : env.map_to m p frame (PRESENT ||| WRITABLE) f₁ = Except.ok (m₁, f₂)) :
    init_heap_loop env m f (p :: rest) =
      ((init_heap_loop env m₁ f₂ rest).1,
        Event.map p frame (PRESENT ||| WRITABLE) :: Event.flush p ::
          (init_heap_loop env m₁ f₂ rest).2) := by
  simp [init_heap_loop, h1, h2]

/-- The mapping loop never emits the allocator-initialization event. -/
theorem init_heap_loop_no_allocInit {M F : Type} (env : InitEnv M F)
    (m : M) (f : F) (pages : List Nat) (s sz : Nat) :
    Event.allocInit s sz ∉ (init_heap_loop env m f pages).2 := by
  induction pages generalizing m f with
  | nil => simp [init_heap_loop]
  | cons p rest ih =>
    cases h1 : env.allocate_frame f with
    | none => rw [loop_cons_none env m f p rest h1]; simp
    | some vf =>
      obtain ⟨frame, f₁⟩ := vf
      cases h2 : env.map_to m p frame (PRESENT ||| WRITABLE) f₁ with
      | error e => rw [loop_cons_maperr env m f p rest frame f₁ e h1 h2]; simp
      | ok mf =>
        obtain ⟨m₁, f₂⟩ := mf
        rw [loop_cons_ok env m f p rest frame f₁ m₁ f₂ h1 h2]
        simp only [List.mem_cons, not_or]
        exact ⟨by simp, by simp, ih m₁ f₂⟩

/-- Splitting the mapping loop after a successful prefix. -/
theorem init_heap_loop_append_ok {M F : Type} (env : InitEnv M F) (m : M) (f : F)
    (xs ys : List Nat) (m₁ : M) (f₁ : F) (evs : List Event)
    (h : init_heap_loop env m f xs = (Except.ok (m₁, f₁), evs)) :
    init_heap_loop env m f (xs ++ ys) =
      ((init_heap_loop env m₁ f₁ ys).1,
        evs ++ (init_heap_loop env m₁ f₁ ys).2) := by
  induction xs generalizing m f evs with
  | nil =>
    simp only [init_heap_loop, Prod.mk.injEq, Except.ok.injEq] at h
    obtain ⟨⟨hm, hf⟩, hevs⟩ := h
    subst hm; subst hf; subst hevs
    simp
  | cons q rest ih =>
    cases h1 : env.allocate_frame f with
    | none => rw [loop_cons_none env m f q rest h1] at h; simp at h
    | some vf =>
      obtain ⟨frame, f₂⟩ := vf
      cases h2 : env.map_to m q frame (PRESENT ||| WRITABLE) f₂ with
      | error e => rw [loop_cons_maperr env m f q rest frame f₂ e h1 h2] at h; simp at h
      | ok mf₂ =>
        obtain ⟨m₂, f₃⟩ := mf₂
        rw [loop_cons_ok env m f q rest frame f₂ m₂ f₃ h1 h2] at h
        simp only [Prod.mk.injEq] at h
        obtain ⟨hfst, hevs⟩ := h
        have h' : init_heap_loop env m₂ f₃ rest =
            (Except.ok (m₁, f₁), (init_heap_loop env m₂ f₃ rest).2) := by
          rw [← hfst]
        rw [List.cons_append,
          loop_cons_ok env m f q (rest ++ ys) frame f₂ m₂ f₃ h1 h2,
          ih m₂ f₃ _ h']
        subst hevs
        simp

/-- If the mapping loop succeeds, every page of its input list got a
mapping event with PRESENT | WRITABLE flags. -/
theorem init_heap_loop_ok_maps {M F : Type} (env : InitEnv M F) (m : M) (f : F)
    (pages : List Nat) (mf : M × F)
    (h : (init_heap_loop env m f pages).1 = Except.ok mf) :
    ∀ p ∈ pages, ∃ fr,
      Event.map p fr (PRESENT ||| WRITABLE) ∈ (init_heap_loop env m f pages).2 := by
  induction pages generalizing m f mf with
  | nil => intro p hp; simp at hp
  | cons q rest ih =>
    intro p hp
    cases h1 : env.allocate_frame f with
    | none => rw [loop_cons_none env m f q rest h1] at h; simp at h
    | some vf =>
      obtain ⟨frame, f₁⟩ := vf
      cases h2 : env.map_to m q frame (PRESENT ||| WRITABLE) f₁ with
      | error e => rw [loop_cons_maperr env m f q rest frame f₁ e h1 h2] at h; simp at h
      | ok mf₂ =>
        obtain ⟨m₁, f₂⟩ := mf₂
        rw [loop_cons_ok env m f q rest frame f₁ m₁ f₂ h1 h2] at h ⊢
        rcases List.mem_cons.mp hp with hpq | hprest
        · subst hpq
          exact ⟨frame, List.mem_cons_self _ _⟩
        · obtain ⟨fr, hfr⟩ := ih m₁ f₂ mf h p hprest
          exact ⟨fr, List.mem_cons_of_mem _ (List.mem_cons_of_mem _ hfr)⟩

/-- In the loop trace, every mapping event carries PRESENT | WRITABLE and
is immediately followed by the flush of the same page. -/
theorem init_heap_loop_map_flush {M F : Type} (env : InitEnv M F) (m : M) (f : F)
    (pages : List Nat) :
    ∀ i p fr fl,
      (init_heap_loop env m f pages).2[i]? = some (Event.map p fr fl) →
        fl = (PRESENT ||| WRITABLE) ∧
          (init_heap_loop env m f pages).2[i + 1]? = some (Event.flush p) := by
  induction pages generalizing m f with
  | nil => intro i p fr fl h; simp [init_heap_loop] at h
  | cons q rest ih =>
    intro i p fr fl h
    cases h1 : env.allocate_frame f with
    | none => rw [loop_cons_none env m f q rest h1] at h; simp at h
    | some vf =>
      obtain ⟨frame, f₁⟩ := vf
      cases h2 : env.map_to m q frame (PRESENT ||| WRITABLE) f₁ with
      | error e => rw [loop_cons_maperr env m f q rest frame f₁ e h1 h2] at h; simp at h
      | ok mf₂ =>
        obtain ⟨m₁, f₂⟩ := mf₂
        rw [loop_cons_ok env m f q rest frame f₁ m₁ f₂ h1 h2] at h ⊢
        match i with
        | 0 =>
          rw [List.getElem?_cons_zero] at h
          simp only [Option.some.injEq, Event.map.injEq] at h
          obtain ⟨hq, _, hfl⟩ := h
          subst hq
          exact ⟨hfl.symm, by rw [List.getElem?_cons_succ, List.getElem?_cons_zero]⟩
        | 1 =>
          rw [List.getElem?_cons_succ, List.getElem?_cons_zero] at h
          simp at h
        | (j + 2) =>
          rw [List.getElem?_cons_succ, List.getElem?_cons_succ] at h
          rw [List.getElem?_cons_succ, List.getElem?_cons_succ]
          exact ih m₁ f₂ j p fr fl h

/-- Claim C3: if the first `i` pages are handled successfully and the
frame supplier then returns no frame, `init_heap` returns
`FrameAllocationFailed` immediately: the trace is exactly the mappings and
flushes of the earlier iterations (no further page is mapped, nothing is
unmapped) and the allocator's `init` is never called. -/
theorem init_heap_frame_alloc_failed {M F : Type} (env : InitEnv M F)
    (m m' : M) (f f' : F) (i : Nat) (hi : i < page_range.length)
    (evs : List Event)
    (hpre : init_heap_loop env m f (page_range.take i) = (Except.ok (m', f'), evs))
    (hnone : env.allocate_frame f' = none) :
    init_heap env m f = (Except.error MapToError.FrameAllocationFailed, evs) ∧
      ∀ s sz, Event.allocInit s sz ∉ evs := by
  have hsplit : page_range =
      page_range.take i ++ (page_range[i] :: page_range.drop (i + 1)) := by
    conv_lhs => rw [← List.take_append_drop i page_range]
    rw [List.drop_eq_getElem_cons hi]
  have hdrop : init_heap_loop env m' f' (page_range[i] :: page_range.drop (i + 1)) =
      (Except.error MapToError.FrameAllocationFailed, []) :=
    loop_cons_none env m' f' _ _ hnone
  have hloop : init_heap_loop env m f page_range =
      (Except.error MapToError.FrameAllocationFailed, evs) := by
    rw [hsplit, init_heap_loop_append_ok env m f _ _ m' f' evs hpre, hdrop]
    simp
  constructor
  · unfold init_heap
    rw [hloop]
  · intro s sz
    have hnm := init_heap_loop_no_allocInit env m f (page_range.take i) s sz
    rw [hpre] at hnm
    exact hnm

/-- Claim C4: `init_heap` calls the allocator's `init(HEAP_START, HEAP_SIZE)`
only after every page of the heap range has been mapped (the event is last,
after all mapping events, and occurs exactly on the success path), and the
result is `Ok` exactly when every page got mapped and the allocator was
initialized. -/
theorem init_heap_ok_iff {M F : Type} (env : InitEnv M F) (m : M) (f : F)
    (res : Except MapToError (M × F)) (evs : List Event)
    (h : init_heap env m f = (res, evs)) :
    ((∃ mf, res = Except.ok mf) ↔
        (∀ p ∈ page_range, ∃ fr, Event.map p fr (PRESENT ||| WRITABLE) ∈ evs) ∧
          Event.allocInit HEAP_START HEAP_SIZE ∈ evs) ∧
      ((∃ mf, res = Except.ok mf) →
        ∃ evs₀, evs = evs₀ ++ [Event.allocInit HEAP_START HEAP_SIZE] ∧
          (∀ s sz, Event.allocInit s sz ∉ evs₀) ∧
          ∀ p ∈ page_range, ∃ fr, Event.map p fr (PRESENT ||| WRITABLE) ∈ evs₀) := by
  unfold init_heap at h
  split at h
  · rename_i mf heq
    simp only [Prod.mk.injEq] at h
    obtain ⟨hres', hevs⟩ := h
    subst hres'
    subst hevs
    constructor
    · constructor
      · intro _
        constructor
        · intro p hp
          obtain ⟨fr, hfr⟩ := init_heap_loop_ok_maps env m f page_range mf heq p hp
          exact ⟨fr, List.mem_append_left _ hfr⟩
        · exact List.mem_append_right _ (List.mem_singleton.mpr rfl)
      · intro _
        exact ⟨mf, rfl⟩
    · intro _
      refine ⟨(init_heap_loop env m f page_range).2, rfl, ?_, ?_⟩
      · exact fun s sz => init_heap_loop_no_allocInit env m f page_range s sz
      · exact fun p hp => init_heap_loop_ok_maps env m f page_range mf heq p hp
  · rename_i e heq
    simp only [Prod.mk.injEq] at h
    obtain ⟨hres', hevs⟩ := h
    subst hres'
    subst hevs
    constructor
    · constructor
      · rintro ⟨mf, hmf⟩
        exact absurd hmf (by simp)
      · rintro ⟨-, hinit⟩
        exact absurd hinit (init_heap_loop_no_allocInit env m f page_range _ _)
    · rintro ⟨mf, hmf⟩
      exact absurd hmf (by simp)

/-- Witness for C4: in the all-success environment the allocator
initialization event is emitted. -/
theorem init_heap_ok_iff_witness :
    Event.allocInit HEAP_START HEAP_SIZE ∈ (init_heap envOk 0 0).2 := by
  have h := init_heap_ok_iff envOk 0 0 (init_heap envOk 0 0).1
    (init_heap envOk 0 0).2 Prod.mk.eta.symm
  exact ((h.1).mp ⟨(0, 25), by rfl⟩).2

/-- Claim C5: every mapping `init_heap` installs carries exactly the
PRESENT | WRITABLE flags, and the translation-cache flush of that page is
the very next event, before any further page is processed. -/
theorem init_heap_flags_flush {M F : Type} (env : InitEnv M F) (m : M) (f : F)
    (res : Except MapToError (M × F)) (evs : List Event)
    (h : init_heap env m f = (res, evs)) :
    (∀ p fr fl, Event.map p fr fl ∈ evs → fl = (PRESENT ||| WRITABLE)) ∧
      ∀ i p fr fl, evs[i]? = some (Event.map p fr fl) →
        evs[i + 1]? = some (Event.flush p) := by
  unfold init_heap at h
  split at h
  · rename_i mf heq
    simp only [Prod.mk.injEq] at h
    obtain ⟨hres', hevs⟩ := h
    subst hres'
    subst hevs
    constructor
    · intro p fr fl hmem
      rcases List.mem_append.mp hmem with hmem' | hmem'
      · obtain ⟨i, hidx⟩ := List.mem_iff_getElem?.mp hmem'
        exact (init_heap_loop_map_flush env m f page_range i p fr fl hidx).1
      · exact absurd (List.mem_singleton.mp hmem') (by simp)
    · intro i p fr fl h'
      have hi : i < (init_heap_loop env m f page_range).2.length := by
        by_contra hge
        push_neg at hge
        rcases Nat.eq_or_lt_of_le hge with heq2 | hlt
        · rw [← heq2, List.getElem?_concat_length] at h'
          simp at h'
        · rw [List.getElem?_eq_none (by simp; omega)] at h'
          simp at h'
      rw [List.getElem?_append_left hi] at h'
      obtain ⟨-, hnext⟩ := init_heap_loop_map_flush env m f page_range i p fr fl h'
      have hi1 : i + 1 < (init_heap_loop env m f page_range).2.length := by
        by_contra hge
        push_neg at hge
        rw [List.getElem?_eq_none hge] at hnext
        simp at hnext
      rw [List.getElem?_append_left hi1]
      exact hnext
  · rename_i e heq
    simp only [Prod.mk.injEq] at h
    obtain ⟨hres', hevs⟩ := h
    subst hres'
    subst hevs
    constructor
    · intro p fr fl hmem
      obtain ⟨i, hidx⟩ := List.mem_iff_getElem?.mp hmem
      exact (init_heap_loop_map_flush env m f page_range i p fr fl hidx).1
    · intro i p fr fl h'
      exact (init_heap_loop_map_flush env m f page_range i p fr fl h').2

/-- Witness for C5: in the all-success environment the event after the
first mapping is the flush of the first heap page. -/
theorem init_heap_flags_flush_witness :
    (init_heap envOk 0 0).2[1]? = some (Event.flush 0x444444440000) := by
  have h := init_heap_flags_flush envOk 0 0 (init_heap envOk 0 0).1
    (init_heap envOk 0 0).2 Prod.mk.eta.symm
  exact h.2 0 0x444444440000 0 3 (by rfl)

/-- Witness for C3: with a supplier that dies after two frames, `init_heap`
fails with FrameAllocationFailed and the trace keeps exactly the first two
mappings and flushes, with no allocator initialization. -/
theorem init_heap_frame_alloc_failed_witness :
    init_heap envW 0 0 =
      (Except.error MapToError.FrameAllocationFailed,
        [Event.map 0x444444440000 100 3, Event.flush 0x444444440000,
          Event.map 0x444444441000 101 3, Event.flush 0x444444441000]) ∧
      Event.allocInit HEAP_START HEAP_SIZE ∉
        [Event.map 0x444444440000 100 3, Event.flush 0x444444440000,
          Event.map 0x444444441000 101 3, Event.flush 0x444444441000] := by
  have h := init_heap_frame_alloc_failed envW 0 0 0 2 2 (by decide)
    [Event.map 0x444444440000 100 3, Event.flush 0x444444440000,
      Event.map 0x444444441000 101 3, Event.flush 0x444444441000]
    (by rfl) (by rfl)
  exact ⟨h.1, h.2 HEAP_START HEAP_SIZE⟩

/-- Claim C6: `page_range` is the inclusive range of 4 KiB pages from the
page containing `HEAP_START` to the page containing
`HEAP_START + HEAP_SIZE - 1`; every byte of the heap lies in one of its
pages, and with the fixed constants it has exactly
`HEAP_SIZE / 4096 = 25` pages. -/
theorem page_range_covers :
    page_range.length = HEAP_SIZE / 4096 ∧ page_range.length = 25 ∧
      page_range.head? = some (pageContainingAddress HEAP_START) ∧
      page_range.getLast? = some (pageContainingAddress (HEAP_START + HEAP_SIZE - 1)) ∧
      ∀ a, HEAP_START ≤ a → a < HEAP_START + HEAP_SIZE →
        ∃ p ∈ page_range, p ≤ a ∧ a < p + 4096 := by
  refine ⟨by decide, by decide, by decide, by decide, ?_⟩
  intro a ha1 ha2
  simp only [HEAP_START, HEAP_SIZE] at ha1 ha2
  refine ⟨a / 4096 * 4096, ?_, by omega, by omega⟩
  simp only [page_range, pageContainingAddress, PAGE_SIZE, HEAP_START, HEAP_SIZE,
    List.mem_map, List.mem_range]
  refine ⟨a / 4096 - 0x444444440000 / 4096, by omega, by omega⟩

/-- Witness for C6: the byte at offset 4242 into the heap is covered by a
page of `page_range`. -/
theorem page_range_covers_witness :
    ∃ p ∈ page_range, p ≤ HEAP_START + 4242 ∧ HEAP_START + 4242 < p + 4096 :=
  page_range_covers.2.2.2.2 (HEAP_START + 4242) (Nat.le_add_right _ _) (by decide)

/-- Claim C7: against an initialized bump allocator, `Allocate` fails with
OutOfMemory when the rounded candidate plus the requested size overflows
the address width or exceeds `heap_end`, and otherwise advances `next` to
`candidate + size`, increments `allocation_count` and returns the
candidate. -/
theorem bump_alloc_spec (b : BumpAllocator) (size align : Nat) :
    (USIZE ≤ align_up b.next align + size ∨
        b.heap_end < align_up b.next align + size →
          b.alloc size align = (none, b)) ∧
      (align_up b.next align + size < USIZE →
        align_up b.next align + size ≤ b.heap_end →
          b.alloc size align =
            (some (align_up b.next align),
              ⟨b.heap_start, b.heap_end, align_up b.next align + size,
                b.allocation_count + 1⟩)) := by
  constructor
  · intro hfail
    rcases hfail with hov | hend
    · simp only [BumpAllocator.alloc]
      rw [if_neg (by omega)]
    · simp only [BumpAllocator.alloc]
      by_cases hov : align_up b.next align + size < USIZE
      · rw [if_pos hov, if_pos hend]
      · rw [if_neg hov]
  · intro hov hend
    simp only [BumpAllocator.alloc]
    rw [if_pos hov, if_neg (by omega)]

/-- Witness for C7, the spec's own scenario: heap of 4096 bytes at base
0x1000, `Allocate(100, 8)` returns 0x1000 and advances `next` to 0x1064. -/
theorem bump_alloc_spec_witness :
    (BumpAllocator.init 0x1000 4096).alloc 100 8 =
      (some 0x1000, ⟨0x1000, 0x2000, 0x1064, 1⟩) := by
  have h := (bump_alloc_spec (BumpAllocator.init 0x1000 4096) 100 8).2
    (by decide) (by decide)
  exact h
